import Mathlib

/-!
Verification of the detection-and-classification pipeline of the
tech-firm-enrichment repository against its specification.

Shallow embedding notes:
* JavaScript objects / `Map`s are modelled as association lists in insertion
  order; property lookup is first-match lookup (`lookupKey`).
* JavaScript numbers used for confidences are modelled as exact rationals.
* The JS `RegExp` engine is an external platform library, not repository
  code; the match engine is therefore parametrised over a regex oracle
  `RegexTest : String → String → Option Bool`, where `none` models the
  constructor throwing (caught and swallowed by the code).  The only fact
  about the real engine used in theorems is the hypothesis that an
  empty-string pattern compiles and matches every input.
* The concrete regex literals inside `needsBrowser` (crawler.service.ts)
  are embedded directly with a small derivative-based regex engine.
-/

namespace TechFirm

/-- Evidence source tags of a Detection (detection.interface.ts). -/
inductive Source
  | header | cookie | script | html | meta | js | implied
deriving DecidableEq, Repr

/-- A raw technology detection (detection.interface.ts).  `confidence` is an
exact rational; `categoryId` models `parseInt(catId)` with `none` for NaN. -/
structure Detection where
  name : String
  category : String
  categoryId : Option Nat
  confidence : ℚ
  source : Source
deriving DecidableEq, Repr

/-- A JS value that is either a string or an array of strings
(the `string | string[]` union used by fingerprint pattern fields). -/
inductive StrOrList
  | str (s : String)
  | arr (l : List String)
deriving DecidableEq, Repr

/-- `Array.isArray(p) ? p : [p]` — the coercion applied to pattern fields. -/
def StrOrList.toList : StrOrList → List String
  | .str s => [s]
  | .arr l => l

/-- One fingerprint rule (wappalyzer.interface.ts `WappalyzerTechnology`).
Record-typed fields become association lists; optional fields become
`Option` (`none` = property absent / undefined). -/
structure WappalyzerTechnology where
  cats : List String
  implies : Option StrOrList := none
  headers : Option (List (String × String)) := none
  meta : Option (List (String × StrOrList)) := none
  html : Option StrOrList := none
  scripts : Option StrOrList := none
  cookies : Option (List (String × String)) := none
deriving DecidableEq, Repr

/-- The fingerprint database (wappalyzer.interface.ts `WappalyzerDatabase`).
A category object `{ name }` is modelled by its name string. -/
structure WappalyzerDatabase where
  categories : List (String × String)
  technologies : List (String × WappalyzerTechnology)
deriving DecidableEq, Repr

/-- A page snapshot (crawl-result.interface.ts `CrawlResult`).  Only the
fields consumed by the match engine are carried. -/
structure CrawlResult where
  headers : List (String × String) := []
  html : String := ""
  scripts : List String := []
  meta : List (String × String) := []
  cookies : List String := []
deriving DecidableEq, Repr

/-- JS object property access `m[k]` on an association list. -/
def lookupKey {α : Type} (m : List (String × α)) (k : String) : Option α :=
  (m.find? (fun p => p.1 = k)).map Prod.snd

/-- `detections.has(name)` for the name-keyed detection map. -/
def hasNameL (dets : List Detection) (n : String) : Bool :=
  dets.any (fun d => d.name = n)

/-- `parseInt` restricted to the decimal-digit-prefixed strings that occur as
category ids; `none` models NaN. -/
def parseIntDigits (s : String) : Option Nat :=
  let ds := s.data.takeWhile Char.isDigit
  if ds.isEmpty then none
  else some (ds.foldl (fun n c => n * 10 + (c.toNat - 48)) 0)

/-- `cookieStr.split('=')` with `key = parts[0]` and
`value = parts.slice(1).join('=')`: split at the first `=`. -/
def splitEq (s : String) : String × String :=
  let k := s.data.takeWhile (fun c => c ≠ '=')
  (⟨k⟩, ⟨s.data.drop (k.length + 1)⟩)

/-- `String.prototype.toLowerCase`, character by character. -/
def lowerStr (s : String) : String :=
  ⟨s.data.map Char.toLower⟩

/-- Oracle for `new RegExp(pattern, 'i').test(input)`; `none` models the
`RegExp` constructor throwing on an invalid pattern. -/
abbrev RegexTest := String → String → Option Bool

/-- A regex oracle that matches everything (every pattern compiles and
accepts every input); used to instantiate witnesses. -/
def rtTrue : RegexTest := fun _ _ => some true

/-- DetectorService.matchHeaders: for each header-name/pattern pair, look the
header up by lowercased name; the JS truthiness guard `if (headerValue)`
skips both an absent key and an empty-string value. -/
def matchHeaders (rt : RegexTest) (patterns : List (String × String))
    (headers : List (String × String)) : Bool :=
  patterns.any (fun kp =>
    match lookupKey headers (lowerStr kp.1) with
    | some v => if v = "" then false else (rt kp.2 v).getD false
    | none => false)

/-- DetectorService.matchCookies: parse each raw cookie string at the first
`=`; an empty pattern returns true on key presence alone. -/
def matchCookies (rt : RegexTest) (patterns : List (String × String))
    (cookies : List String) : Bool :=
  cookies.any (fun cookieStr =>
    match lookupKey patterns (splitEq cookieStr).1 with
    | some pattern =>
        if pattern = "" then true else (rt pattern (splitEq cookieStr).2).getD false
    | none => false)

/-- DetectorService.matchScripts: every pattern against every script URL. -/
def matchScripts (rt : RegexTest) (patterns : StrOrList)
    (scripts : List String) : Bool :=
  patterns.toList.any (fun p => scripts.any (fun s => (rt p s).getD false))

/-- DetectorService.matchHtml: every pattern against the full HTML text. -/
def matchHtml (rt : RegexTest) (patterns : StrOrList) (html : String) : Bool :=
  patterns.toList.any (fun p => (rt p html).getD false)

/-- DetectorService.matchMeta: look the meta value up by lowercased name
(`if (metaValue)` also skips an empty-string value), then try each listed
pattern. -/
def matchMeta (rt : RegexTest) (patterns : List (String × StrOrList))
    (meta : List (String × String)) : Bool :=
  patterns.any (fun kp =>
    match lookupKey meta (lowerStr kp.1) with
    | some v => if v = "" then false
                else kp.2.toList.any (fun p => (rt p v).getD false)
    | none => false)

/-- `const catId = tech.cats?.[0] || "1"`: the first category id, with both
a missing/empty list and a falsy (empty-string) first element giving "1". -/
def headCatId (tech : WappalyzerTechnology) : String :=
  match tech.cats.head? with
  | some c => if c = "" then "1" else c
  | none => "1"

/-- `this.database.categories[catId]?.name || 'Miscellaneous'`: the category
display name, with an absent entry and a falsy (empty-string) name both
giving 'Miscellaneous'. -/
def categoryNameFor (db : WappalyzerDatabase) (catId : String) : String :=
  match lookupKey db.categories catId with
  | some n => if n = "" then "Miscellaneous" else n
  | none => "Miscellaneous"

/-- The Detection record built by DetectorService.addDetection. -/
def mkDetection (db : WappalyzerDatabase) (tech : WappalyzerTechnology)
    (name : String) (confidence : ℚ) (source : Source) : Detection :=
  { name := name, category := categoryNameFor db (headCatId tech),
    categoryId := parseIntDigits (headCatId tech),
    confidence := confidence, source := source }

/-- DetectorService.addDetection: skip if the name is already present;
otherwise append the detection built from the rule's first category id. -/
def addDetection (db : WappalyzerDatabase) (dets : List Detection)
    (name : String) (tech : WappalyzerTechnology) (confidence : ℚ)
    (source : Source) : List Detection :=
  if hasNameL dets name then dets
  else dets ++ [mkDetection db tech name confidence source]

/-- The header clause of the per-technology cascade in `detect`:
`if (tech.headers) { if (this.matchHeaders(...)) ... }`. -/
def checkHeader (rt : RegexTest) (tech : WappalyzerTechnology)
    (snap : CrawlResult) : Bool :=
  match tech.headers with
  | some hp => matchHeaders rt hp snap.headers
  | none => false

/-- The cookie clause of the per-technology cascade in `detect`. -/
def checkCookie (rt : RegexTest) (tech : WappalyzerTechnology)
    (snap : CrawlResult) : Bool :=
  match tech.cookies with
  | some cp => matchCookies rt cp snap.cookies
  | none => false

/-- The script clause of the per-technology cascade in `detect`. -/
def checkScript (rt : RegexTest) (tech : WappalyzerTechnology)
    (snap : CrawlResult) : Bool :=
  match tech.scripts with
  | some sp => matchScripts rt sp snap.scripts
  | none => false

/-- The html clause of the per-technology cascade in `detect`. -/
def checkHtml (rt : RegexTest) (tech : WappalyzerTechnology)
    (snap : CrawlResult) : Bool :=
  match tech.html with
  | some hp => matchHtml rt hp snap.html
  | none => false

/-- The meta clause of the per-technology cascade in `detect`. -/
def checkMeta (rt : RegexTest) (tech : WappalyzerTechnology)
    (snap : CrawlResult) : Bool :=
  match tech.meta with
  | some mp => matchMeta rt mp snap.meta
  | none => false

/-- The first evidence kind of the `detect` cascade that matches, in the
source's textual order header, cookie, script, html, meta (each clause
`continue`s past all later ones on success). -/
def firstMatch (rt : RegexTest) (tech : WappalyzerTechnology)
    (snap : CrawlResult) : Option Source :=
  if checkHeader rt tech snap then some .header
  else if checkCookie rt tech snap then some .cookie
  else if checkScript rt tech snap then some .script
  else if checkHtml rt tech snap then some .html
  else if checkMeta rt tech snap then some .meta
  else none

/-- One iteration of the technology loop in DetectorService.detect. -/
def detectTech (rt : RegexTest) (db : WappalyzerDatabase) (snap : CrawlResult)
    (dets : List Detection) (name : String) (tech : WappalyzerTechnology) :
    List Detection :=
  match firstMatch rt tech snap with
  | some src => addDetection db dets name tech 1 src
  | none => dets

/-- The direct-evidence phase of DetectorService.detect (the loop over
`Object.entries(this.database.technologies)` starting from an empty map). -/
def detectDirect (rt : RegexTest) (db : WappalyzerDatabase)
    (snap : CrawlResult) : List Detection :=
  db.technologies.foldl (fun dets p => detectTech rt db snap dets p.1 p.2) []

/-- The implied-name list of a rule: `tech.implies` is guarded by JS
truthiness (an empty string is falsy), then wrapped by `Array.isArray`. -/
def impliesList (tech : WappalyzerTechnology) : List String :=
  match tech.implies with
  | none => []
  | some (.str s) => if s = "" then [] else [s]
  | some (.arr l) => l

/-- The body of the implied-name loop in processImplications: skip a name
already present, skip a name with no rule, otherwise addDetection with
confidence 1 and source `implied`. -/
def addImplied (db : WappalyzerDatabase) (dets : List Detection)
    (impliedName : String) : List Detection :=
  if hasNameL dets impliedName then dets
  else
    match lookupKey db.technologies impliedName with
    | some impliedTech => addDetection db dets impliedName impliedTech 1 .implied
    | none => dets

/-- Processing of a single detection inside one scan of processImplications. -/
def procDet (db : WappalyzerDatabase) (dets : List Detection)
    (det : Detection) : List Detection :=
  match lookupKey db.technologies det.name with
  | some tech => (impliesList tech).foldl (addImplied db) dets
  | none => dets

/-- One full scan of processImplications: the inner `for` loop runs over
`Array.from(detections.values())` — a snapshot of the map taken at scan
start — while additions land in the live map (the accumulator). -/
def impPass (db : WappalyzerDatabase) (dets : List Detection) :
    List Detection :=
  dets.foldl (procDet db) dets

/-- Number of database technologies whose name is not yet detected; the
decreasing measure behind the `while (changed)` loop. -/
def missingCount (db : WappalyzerDatabase) (dets : List Detection) : Nat :=
  db.technologies.countP (fun p => !hasNameL dets p.1)

/-- The `while (changed)` loop of processImplications, indexed by the number
of remaining scans; a scan that adds nothing (`changed` stays false) stops
the loop.  `missingCount db dets + 1` scans always suffice (proved below),
so the fuelled loop agrees with the unbounded source loop. -/
def impLoop (db : WappalyzerDatabase) : Nat → List Detection → List Detection
  | 0, dets => dets
  | fuel + 1, dets =>
    let d := impPass db dets
    if d.length = dets.length then dets else impLoop db fuel d

/-- DetectorService.processImplications. -/
def processImplications (db : WappalyzerDatabase) (dets : List Detection) :
    List Detection :=
  impLoop db (missingCount db dets + 1) dets

/-- DetectorService.detect: direct matching followed by implication
resolution; the map's values in insertion order are returned. -/
def detect (rt : RegexTest) (db : WappalyzerDatabase) (snap : CrawlResult) :
    List Detection :=
  processImplications db (detectDirect rt db snap)

/-- The result of `JSON.parse` on the fingerprint payload: both top-level
keys may independently be absent. -/
structure RawPayload where
  technologies : Option (List (String × WappalyzerTechnology))
  categories : Option (List (String × String))
deriving DecidableEq, Repr

/-- The two exceptions that can escape DetectorService.loadFingerprints
(both are logged and rethrown, so startup fails). -/
inductive LoadError
  | jsonParseError
  | technologiesUndefined
deriving DecidableEq, Repr

/-- DetectorService.loadFingerprints: `JSON.parse` throwing is modelled by a
`none` input.  After a successful parse the only field touched is
`this.database.technologies` (via `Object.keys(...)` in the log line), which
throws a TypeError when `technologies` is absent; `categories` is never
inspected at load time. -/
def loadFingerprints (parsed : Option RawPayload) :
    Except LoadError RawPayload :=
  match parsed with
  | none => .error .jsonParseError
  | some p =>
    match p.technologies with
    | none => .error .technologiesUndefined
    | some _ => .ok p

/-!  ### Escalation policy (CrawlerService.needsBrowser)

The regex literals of `needsBrowser` are embedded with a small
derivative-based matcher over `List Char`.  The `i` flag is modelled by
lowercasing the subject and writing the pattern literals in lowercase.
-/

/-- The JS `\s` character class (and the character set stripped by
`String.prototype.trim`), restricted to the code points that occur here. -/
def jsWs (c : Char) : Bool :=
  c = ' ' || c = '\t' || c = '\n' || c = '\r' ||
  c = Char.ofNat 11 || c = Char.ofNat 12 || c = Char.ofNat 0xa0 ||
  c = Char.ofNat 0xfeff

/-- Regular expressions, as needed for the `needsBrowser` literals. -/
inductive RE
  | emp
  | eps
  | chr (c : Char)
  | cls (p : Char → Bool)
  | seq (r1 r2 : RE)
  | alt (r1 r2 : RE)
  | star (r : RE)

/-- Does the regex accept the empty string? -/
def RE.nullable : RE → Bool
  | .emp => false
  | .eps => true
  | .chr _ => false
  | .cls _ => false
  | .seq r1 r2 => r1.nullable && r2.nullable
  | .alt r1 r2 => r1.nullable || r2.nullable
  | .star _ => true

/-- Is the regex syntactically the empty language (used to cut dead search
branches)? -/
def RE.isEmp : RE → Bool
  | .emp => true
  | _ => false

/-- Sequencing with simplification. -/
def RE.seqS (r1 r2 : RE) : RE :=
  match r1, r2 with
  | .emp, _ => .emp
  | _, .emp => .emp
  | .eps, r => r
  | r, .eps => r
  | a, b => .seq a b

/-- Alternation with simplification. -/
def RE.altS (r1 r2 : RE) : RE :=
  match r1, r2 with
  | .emp, r => r
  | r, .emp => r
  | a, b => .alt a b

/-- Brzozowski derivative. -/
def RE.deriv : RE → Char → RE
  | .emp, _ => .emp
  | .eps, _ => .emp
  | .chr c, d => if c = d then .eps else .emp
  | .cls p, d => if p d then .eps else .emp
  | .seq r1 r2, d =>
    if r1.nullable then RE.altS (RE.seqS (r1.deriv d) r2) (r2.deriv d)
    else RE.seqS (r1.deriv d) r2
  | .alt r1 r2, d => RE.altS (r1.deriv d) (r2.deriv d)
  | .star r, d => RE.seqS (r.deriv d) (.star r)

/-- Does some prefix of the input match the regex? -/
def reAcceptsFrom (r : RE) : List Char → Bool
  | [] => r.nullable
  | c :: cs =>
    r.nullable ||
    (let d := r.deriv c
     if d.isEmp then false else reAcceptsFrom d cs)

/-- `RegExp.prototype.test`: does the regex match anywhere in the input? -/
def reSearch (r : RE) : List Char → Bool
  | [] => r.nullable
  | c :: cs => reAcceptsFrom r (c :: cs) || reSearch r cs

/-- A literal string as a regex. -/
def reLit (s : String) : RE :=
  s.data.foldr (fun c r => RE.seq (.chr c) r) .eps

/-- The class `[^>]`. -/
def clsNotGt : RE := .cls (fun c => c ≠ '>')

/-- The class `["']`. -/
def clsQuote : RE := .cls (fun c => c = '"' || c = Char.ofNat 39)

/-- The class `\s`. -/
def clsWs : RE := .cls jsWs

/-- The class `.` without the `s` flag (anything but a line terminator). -/
def clsDot : RE :=
  .cls (fun c =>
    !(c = '\n' || c = '\r' || c = Char.ofNat 0x2028 || c = Char.ofNat 0x2029))

/-- One of the three SPA mount-point literals, e.g.
`/<div[^>]*id=["']root["'][^>]*>\s*<\/div>/i`. -/
def spaDivPattern (mount : String) : RE :=
  .seq (reLit "<div")
    (.seq (.star clsNotGt)
      (.seq (reLit "id=")
        (.seq clsQuote
          (.seq (reLit mount)
            (.seq clsQuote
              (.seq (.star clsNotGt)
                (.seq (.chr '>')
                  (.seq (.star clsWs) (reLit "</div>")))))))))

/-- One of the two noscript literals, e.g.
`/<noscript[^>]*>.*?enable javascript/i`. -/
def noscriptPattern (warning : String) : RE :=
  .seq (reLit "<noscript")
    (.seq (.star clsNotGt)
      (.seq (.chr '>')
        (.seq (.star clsDot) (reLit warning))))

/-- The `spaSignals` loop of CrawlerService.needsBrowser: the five regex
tests, in source order, against the (lowercased) HTML. -/
def spaSignals (html : List Char) : Bool :=
  let l := html.map Char.toLower
  reSearch (spaDivPattern "root") l ||
  reSearch (spaDivPattern "app") l ||
  reSearch (spaDivPattern "__next") l ||
  reSearch (noscriptPattern "enable javascript") l ||
  reSearch (noscriptPattern "javascript is required") l

/-- Case-insensitive prefix test: `pat` is given in lowercase. -/
def startsWithCI (pat : List Char) (l : List Char) : Bool :=
  match pat, l with
  | [], _ => true
  | _ :: _, [] => false
  | p :: ps, c :: cs => p = c.toLower && startsWithCI ps cs

/-- Split the input at the first case-insensitive occurrence of `pat`,
returning the text before it and the text after it. -/
def splitAtCI (pat : List Char) : List Char → Option (List Char × List Char)
  | [] => none
  | c :: cs =>
    if startsWithCI pat (c :: cs) then some ([], (c :: cs).drop pat.length)
    else (splitAtCI pat cs).map (fun p => (c :: p.1, p.2))

/-- The capture of `html.match(/<body[^>]*>([\s\S]*?)<\/body>/i)`: at the
leftmost viable `<body` the greedy `[^>]*>` runs to the first `>`, then the
lazy group runs to the first `</body>`; a start position with no completing
`>` or `</body>` is abandoned and the scan resumes one character later. -/
def extractBody : List Char → Option (List Char)
  | [] => none
  | c :: cs =>
    if startsWithCI "<body".data (c :: cs) then
      match (c :: cs).drop 5 |>.dropWhile (fun d => d ≠ '>') with
      | [] => extractBody cs
      | _ :: afterGt =>
        match splitAtCI "</body>".data afterGt with
        | some p => some p.1
        | none => extractBody cs
    else extractBody cs

/-- Fuelled scanner for the global replace
`.replace(/<script[\s\S]*?<\/script>/gi, '')`: at each position, a
`<script` opener with a later `</script>` deletes through the first closer
and the scan resumes after it; otherwise the character is kept.  Each step
consumes at least one input character, so fuel = input length suffices. -/
def stripScriptsGo : Nat → List Char → List Char
  | 0, l => l
  | _ + 1, [] => []
  | fuel + 1, c :: cs =>
    if startsWithCI "<script".data (c :: cs) then
      match splitAtCI "</script>".data ((c :: cs).drop 7) with
      | some p => stripScriptsGo fuel p.2
      | none => c :: stripScriptsGo fuel cs
    else c :: stripScriptsGo fuel cs

/-- `bodyContent.replace(/<script[\s\S]*?<\/script>/gi, '')`. -/
def stripScripts (l : List Char) : List Char :=
  stripScriptsGo l.length l

/-- `String.prototype.trim`. -/
def trimJs (l : List Char) : List Char :=
  ((l.dropWhile jsWs).reverse.dropWhile jsWs).reverse

/-- CrawlerService.needsBrowser: the five SPA-signal regexes, then the
short-body check `bodyContent.trim().length < 200` on the script-stripped
`<body>` capture. -/
def needsBrowser (html : List Char) : Bool :=
  spaSignals html ||
  match extractBody html with
  | some body => decide ((trimJs (stripScripts body)).length < 200)
  | none => false

/-- Spec-side measure: the number of non-whitespace characters of a text
(the quantity the specification's short-body rule is stated in). -/
def countNonWs (l : List Char) : Nat :=
  (l.filter (fun c => !jsWs c)).length

/-!  ### Ordinal string comparison

JS `Array.prototype.sort()` on strings compares code units; it is embedded
as lexicographic code-point comparison, spelled out as an executable
comparator proven equivalent to the string order so that sorting results
evaluate in the kernel.
-/

/-- Lexicographic code-point comparison of character lists. -/
def leChars : List Char → List Char → Bool
  | [], _ => true
  | _ :: _, [] => false
  | a :: as, b :: bs =>
    if a < b then true else if b < a then false else leChars as bs

lemma leChars_iff : ∀ (as bs : List Char), leChars as bs = true ↔ ¬ bs < as
  | [], bs => by
    constructor
    · intro _ h
      cases h
    · intro _
      rfl
  | _ :: _, [] => by
    constructor
    · intro h
      simp [leChars] at h
    · intro h
      exact absurd List.Lex.nil h
  | a :: as, b :: bs => by
    by_cases hab : a < b
    · simp only [leChars, if_pos hab]
      constructor
      · intro _ h
        cases h with
        | rel hba => exact absurd hab (asymm hba)
        | cons _ => exact absurd hab (lt_irrefl _)
      · intro _
        trivial
    · by_cases hba : b < a
      · simp only [leChars, if_neg hab, if_pos hba]
        constructor
        · intro h
          simp at h
        · intro h
          exact absurd (List.Lex.rel hba) h
      · have heq : a = b := le_antisymm (not_lt.mp hba) (not_lt.mp hab)
        subst heq
        simp only [leChars, if_neg hab, if_neg hba]
        rw [leChars_iff as bs]
        constructor
        · intro h hlt
          cases hlt with
          | rel h' => exact absurd h' (lt_irrefl _)
          | cons h' => exact h h'
        · intro h hlt
          exact h (List.Lex.cons hlt)

/-- The boolean form of the ordinal string order. -/
def leStr (a b : String) : Bool := leChars a.data b.data

lemma leStr_iff (a b : String) : leStr a b = true ↔ a ≤ b := by
  rw [leStr, leChars_iff]
  constructor
  · intro h
    exact not_lt.mp (fun hlt => h (String.lt_iff_toList_lt.mp hlt))
  · intro h hlt
    exact absurd (String.lt_iff_toList_lt.mpr hlt) (not_lt.mpr h)

/-- A kernel-evaluating decision procedure for the string order, used by
the sorting step below. -/
instance (priority := 1100) decLeStr : DecidableRel (α := String) (· ≤ ·) :=
  fun a b => decidable_of_iff (leStr a b = true) (leStr_iff a b)

/-!  ### Taxonomy normalizer (normalizer.service.ts, taxonomy.ts)  -/

/-- taxonomy.ts CATEGORY_MAPPING, in source insertion order. -/
def CATEGORY_MAPPING : List (String × List String) :=
  [("analytics", ["Google Analytics", "Mixpanel", "Segment", "Amplitude",
      "Heap", "Hotjar", "Facebook Pixel", "LinkedIn Insight Tag",
      "Twitter Pixel", "TikTok Pixel"]),
   ("cms", ["WordPress", "Wix", "Squarespace", "Webflow", "Drupal",
      "Joomla", "Ghost"]),
   ("ecommerce", ["Shopify", "WooCommerce", "Magento", "BigCommerce",
      "PrestaShop"]),
   ("framework", ["React", "Vue.js", "Angular", "Next.js", "Nuxt.js",
      "Gatsby", "Svelte", "Astro", "Remix", "jQuery"]),
   ("css_framework", ["Bootstrap", "Tailwind CSS", "Material-UI", "Bulma"]),
   ("backend", ["Node.js", "PHP", "Ruby on Rails", "Laravel", "Django",
      "ASP.NET"]),
   ("server", ["Nginx", "Apache"]),
   ("cdn", ["Cloudflare", "Cloudinary", "Imgix", "Amazon Web Services"]),
   ("hosting", ["Vercel", "Netlify", "Amazon Web Services", "Google Cloud",
      "Azure"]),
   ("marketing", ["HubSpot", "Mailchimp", "Klaviyo", "Marketo",
      "ActiveCampaign"]),
   ("crm", ["Salesforce", "HubSpot", "Pipedrive", "Zoho CRM"]),
   ("chat", ["Intercom", "Zendesk", "Drift", "Crisp", "Tawk.to"]),
   ("payment", ["Stripe", "PayPal", "Square", "Braintree"]),
   ("tag_manager", ["Google Tag Manager"]),
   ("ab_testing", ["Optimizely", "VWO", "Google Optimize"]),
   ("monitoring", ["Sentry", "Datadog", "New Relic", "LogRocket"]),
   ("security", ["reCAPTCHA", "hCaptcha", "Cloudflare"]),
   ("database", ["Firebase", "Supabase", "MongoDB", "PostgreSQL"]),
   ("search", ["Algolia", "Elasticsearch"]),
   ("maps", ["Google Maps", "Mapbox"]),
   ("video", ["YouTube", "Vimeo", "Wistia"]),
   ("fonts", ["Google Fonts", "Font Awesome", "Adobe Fonts"]),
   ("advertising", ["Google Ads", "Facebook Pixel", "LinkedIn Insight Tag",
      "Twitter Pixel", "TikTok Pixel"]),
   ("forms", ["Typeform", "Calendly", "JotForm"])]

/-- taxonomy.ts getTechCategory: first category whose list contains the
technology name, else null. -/
def getTechCategory (techName : String) : Option String :=
  (CATEGORY_MAPPING.find? (fun p => p.2.contains techName)).map Prod.fst

/-- `replace(/\s+/g, '_')` on an already lowercased text: each maximal
whitespace run becomes a single underscore.  The flag records whether the
previous character was part of a whitespace run. -/
def slugGo (prevWs : Bool) : List Char → List Char
  | [] => []
  | c :: cs =>
    if jsWs c then
      if prevWs then slugGo true cs else '_' :: slugGo true cs
    else c :: slugGo false cs

/-- `category.toLowerCase().replace(/\s+/g, '_')`. -/
def slugify (s : String) : String :=
  ⟨slugGo false (s.data.map Char.toLower)⟩

/-- The category key a detection is filed under in NormalizerService
.normalize: the taxonomy override when present (a null — and, vacuously for
the non-empty keys of CATEGORY_MAPPING, falsy — result falls back to the
slugified fingerprint category). -/
def resolvedCategory (d : Detection) : String :=
  match getTechCategory d.name with
  | some c => c
  | none => slugify d.category

/-- `Number(x.toFixed(2))` on a non-negative value: round to two decimals,
ties toward the larger candidate (round half up), i.e. the floor of
`q * 100 + 1/2` divided by 100.  The floor is spelled with integer
division on the reduced numerator and denominator so that it evaluates in
the kernel; `round2_eq_floor` below identifies it with the usual floor. -/
def round2 (q : ℚ) : ℚ :=
  (((q * 100 + 1 / 2).num / ((q * 100 + 1 / 2).den : ℤ) : ℤ) : ℚ) / 100

lemma round2_eq_floor (q : ℚ) : round2 q = (⌊q * 100 + 1 / 2⌋ : ℚ) / 100 := by
  rw [round2, Rat.floor_def]

/-- The two accumulator objects built by the detection loop of
NormalizerService.normalize. -/
structure NormState where
  technologies : List (String × List String)
  categoryConfidences : List (String × List ℚ)
deriving DecidableEq, Repr

/-- Update every entry of an association list holding key `k` (the object
keys are unique in every state the code builds). -/
def updAssoc {α : Type} (m : List (String × α)) (k : String) (f : α → α) :
    List (String × α) :=
  m.map (fun p => if p.1 = k then (p.1, f p.2) else p)

/-- One iteration of the detection loop of NormalizerService.normalize:
resolve the category, initialise its two arrays on first sight, then push
name and confidence unless the name is already listed in that category. -/
def normStep (st : NormState) (d : Detection) : NormState :=
  match lookupKey st.technologies (resolvedCategory d) with
  | none =>
    { technologies := st.technologies ++ [(resolvedCategory d, [d.name])],
      categoryConfidences :=
        st.categoryConfidences ++ [(resolvedCategory d, [d.confidence])] }
  | some lst =>
    if d.name ∈ lst then st
    else
      { technologies :=
          updAssoc st.technologies (resolvedCategory d) (· ++ [d.name]),
        categoryConfidences :=
          updAssoc st.categoryConfidences (resolvedCategory d)
            (· ++ [d.confidence]) }

/-- NormalizedResult (normalizer.service.ts). -/
structure NormalizedResult where
  technologies : List (String × List String)
  confidence : List (String × ℚ)
  rawCount : Nat
deriving DecidableEq, Repr

/-- NormalizerService.normalize: run the detection loop, then average and
round each category's confidences, then sort each category's technology
list (JS default sort on strings = ordinal ascending). -/
def normalize (dets : List Detection) : NormalizedResult :=
  { technologies :=
      (dets.foldl normStep ⟨[], []⟩).technologies.map
        (fun p => (p.1, p.2.insertionSort (· ≤ ·))),
    confidence :=
      (dets.foldl normStep ⟨[], []⟩).categoryConfidences.map
        (fun p => (p.1, round2 (p.2.sum / (p.2.length : ℚ)))),
    rawCount := dets.length }

/-!  ### Spec-side definitions used for refinement statements  -/

/-- The specification's fixed evidence-kind priority order. -/
def evidenceOrder : List Source :=
  [.header, .cookie, .script, .html, .meta]

/-- Spec-side per-kind predicate: does this single evidence kind match the
snapshot for this rule? -/
def specFires (rt : RegexTest) (tech : WappalyzerTechnology)
    (snap : CrawlResult) : Source → Bool
  | .header => checkHeader rt tech snap
  | .cookie => checkCookie rt tech snap
  | .script => checkScript rt tech snap
  | .html => checkHtml rt tech snap
  | .meta => checkMeta rt tech snap
  | _ => false

/-- A detection set closed under the store's implies edges: every implied
name of every detected technology that has a rule is already detected. -/
def isClosed (db : WappalyzerDatabase) (dets : List Detection) : Bool :=
  dets.all (fun d =>
    match lookupKey db.technologies d.name with
    | some tech =>
      (impliesList tech).all
        (fun nm => !(lookupKey db.technologies nm).isSome || hasNameL dets nm)
    | none => true)

/-!  ### General lemmas about the embedded operations  -/

lemma lookupKey_cons {α : Type} (a : String × α) (m : List (String × α))
    (k : String) :
    lookupKey (a :: m) k = if a.1 = k then some a.2 else lookupKey m k := by
  by_cases h : a.1 = k <;> simp [lookupKey, List.find?_cons, h]

lemma lookupKey_isSome {α : Type} (m : List (String × α)) (k : String) :
    (lookupKey m k).isSome = true ↔ ∃ p ∈ m, p.1 = k := by
  induction m with
  | nil => simp [lookupKey]
  | cons a m ih =>
    rw [lookupKey_cons]
    by_cases h : a.1 = k <;> simp [h, ih]

lemma lookupKey_eq_none {α : Type} (m : List (String × α)) (k : String)
    (h : lookupKey m k = none) : ∀ p ∈ m, p.1 ≠ k := by
  intro p hp hpk
  have hs : (lookupKey m k).isSome = true :=
    (lookupKey_isSome m k).mpr ⟨p, hp, hpk⟩
  rw [h] at hs
  simp at hs

lemma lookupKey_of_mem_nodup {α : Type} :
    ∀ (m : List (String × α)) (k : String) (v : α),
    (m.map Prod.fst).Nodup → (k, v) ∈ m → lookupKey m k = some v := by
  intro m
  induction m with
  | nil => intro k v _ hv; simp at hv
  | cons a m ih =>
    intro k v hnd hv
    rw [lookupKey_cons]
    rcases List.mem_cons.mp hv with rfl | hv'
    · simp
    · have hk : a.1 ≠ k := by
        intro hak
        have : k ∈ m.map Prod.fst := List.mem_map.mpr ⟨(k, v), hv', rfl⟩
        rw [← hak] at this
        exact (List.nodup_cons.mp hnd).1 this
      simp [hk]
      exact ih k v (List.nodup_cons.mp hnd).2 hv'

lemma lookupKey_unique {α : Type} :
    ∀ (m : List (String × α)) (k : String) (v : α),
    (m.map Prod.fst).Nodup → lookupKey m k = some v →
    ∀ p ∈ m, p.1 = k → p.2 = v := by
  intro m
  induction m with
  | nil => intro k v _ _ p hp; simp at hp
  | cons a m ih =>
    intro k v hnd hl p hp hpk
    rw [lookupKey_cons] at hl
    by_cases hak : a.1 = k
    · simp [hak] at hl
      rcases List.mem_cons.mp hp with rfl | hp'
      · exact hl ▸ rfl
      · exfalso
        have : k ∈ m.map Prod.fst := List.mem_map.mpr ⟨p, hp', hpk⟩
        rw [← hak] at this
        exact (List.nodup_cons.mp hnd).1 this
    · simp [hak] at hl
      rcases List.mem_cons.mp hp with rfl | hp'
      · exact absurd hpk hak
      · exact ih k v (List.nodup_cons.mp hnd).2 hl p hp' hpk

lemma lookupKey_map_val {α β : Type} (m : List (String × α)) (f : α → β)
    (k : String) :
    lookupKey (m.map (fun p => (p.1, f p.2))) k = (lookupKey m k).map f := by
  induction m with
  | nil => simp [lookupKey]
  | cons a m ih =>
    simp only [List.map_cons]
    rw [lookupKey_cons, lookupKey_cons]
    by_cases h : a.1 = k <;> simp [h, ih]

lemma hasNameL_append (a b : List Detection) (n : String) :
    hasNameL (a ++ b) n = (hasNameL a n || hasNameL b n) := by
  simp [hasNameL, List.any_append]

lemma hasNameL_mono {a : List Detection} (t : List Detection) {n : String}
    (h : hasNameL a n = true) : hasNameL (a ++ t) n = true := by
  simp [hasNameL_append, h]

lemma hasNameL_of_mem {dets : List Detection} {d : Detection}
    (hd : d ∈ dets) : hasNameL dets d.name = true := by
  simp [hasNameL, List.any_eq_true]
  exact ⟨d, hd, rfl⟩

lemma hasNameL_eq_false_iff (dets : List Detection) (n : String) :
    hasNameL dets n = false ↔ n ∉ dets.map Detection.name := by
  rw [← Bool.not_eq_true]
  simp [hasNameL, List.any_eq_true, List.mem_map]

lemma addDetection_fresh (db : WappalyzerDatabase) (dets : List Detection)
    (name : String) (tech : WappalyzerTechnology) (conf : ℚ) (src : Source)
    (h : hasNameL dets name = false) :
    addDetection db dets name tech conf src =
      dets ++ [mkDetection db tech name conf src] := by
  simp [addDetection, h]

lemma foldl_preserve {α β : Type} (P : α → Prop) (f : α → β → α)
    (h : ∀ a b, P a → P (f a b)) :
    ∀ (l : List β) (a : α), P a → P (l.foldl f a)
  | [], _, ha => ha
  | b :: l, a, ha => foldl_preserve P f h l (f a b) (h a b ha)

/-!  ### Claim C1 — empty-string patterns and key presence  -/

/-- The single-technology store of the C1 counterexample: one rule with the
empty-string pattern for header name X-Test. -/
def c1Db : WappalyzerDatabase :=
  { categories := [("1", "CatOne")],
    technologies := [("T", { cats := ["1"], headers := some [("X-Test", "")] })] }

/-- The C1 snapshot: the header key is present with an empty-string value. -/
def c1Snap : CrawlResult := { headers := [("x-test", "")] }

/-- Claim C1 counterexample: a rule with an empty-string header pattern, a
snapshot in which that header key is present (with empty value), yet even
under a regex oracle that matches everything the engine records no match:
the JS truthiness guard `if (headerValue)` skips an empty header value. -/
theorem c1_empty_header_value_counterexample :
    lookupKey c1Snap.headers (lowerStr "X-Test") = some "" ∧
    matchHeaders rtTrue [("X-Test", "")] c1Snap.headers = false ∧
    detect rtTrue c1Db c1Snap = [] := by
  refine ⟨by decide, by decide, by decide⟩

/-- Claim C1 (amended): an empty-string cookie pattern matches on key
presence alone, regardless of value; an empty-string header or meta pattern
matches whenever the key is present with a non-empty value (`rt`
ranges over regex oracles under which the empty pattern matches every
input, as JS RegExp does). -/
theorem empty_pattern_presence (rt : RegexTest)
    (hrt : ∀ v, rt "" v = some true) :
    (∀ (patC : List (String × String)) (cookies : List String),
       (∃ c ∈ cookies, lookupKey patC (splitEq c).1 = some "") →
       matchCookies rt patC cookies = true) ∧
    (∀ (k : String) (patH headers : List (String × String)) (v : String),
       (k, "") ∈ patH → lookupKey headers (lowerStr k) = some v → v ≠ "" →
       matchHeaders rt patH headers = true) ∧
    (∀ (k : String) (patM : List (String × StrOrList)) (ps : StrOrList)
       (meta : List (String × String)) (v : String),
       (k, ps) ∈ patM → "" ∈ ps.toList → lookupKey meta (lowerStr k) = some v →
       v ≠ "" → matchMeta rt patM meta = true) := by
  refine ⟨?_, ?_, ?_⟩
  · rintro patC cookies ⟨c, hc, hl⟩
    unfold matchCookies
    rw [List.any_eq_true]
    exact ⟨c, hc, by rw [hl]; simp⟩
  · intro k patH headers v hmem hv hne
    unfold matchHeaders
    rw [List.any_eq_true]
    refine ⟨(k, ""), hmem, ?_⟩
    simp only [hv, hrt]
    simp [hne]
  · intro k patM ps meta v hmem hps hv hne
    unfold matchMeta
    rw [List.any_eq_true]
    refine ⟨(k, ps), hmem, ?_⟩
    simp only [hv]
    rw [if_neg hne, List.any_eq_true]
    exact ⟨"", hps, by rw [hrt]; rfl⟩

/-- Witness for the amended C1 theorem at concrete inputs. -/
theorem empty_pattern_presence_witness :
    rtTrue "" "anything" = some true ∧
    matchCookies rtTrue [("sid", "")] ["sid="] = true ∧
    matchHeaders rtTrue [("K", "")] [("k", "x")] = true ∧
    matchMeta rtTrue [("G", StrOrList.str "")] [("g", "y")] = true := by
  refine ⟨rfl, ?_, ?_, ?_⟩
  · exact (empty_pattern_presence rtTrue (fun v => rfl)).1 [("sid", "")]
      ["sid="] ⟨"sid=", by decide, by decide⟩
  · exact (empty_pattern_presence rtTrue (fun v => rfl)).2.1 "K" [("K", "")]
      [("k", "x")] "x" (by decide) (by decide) (by decide)
  · exact (empty_pattern_presence rtTrue (fun v => rfl)).2.2 "G"
      [("G", StrOrList.str "")] (StrOrList.str "") [("g", "y")] "y"
      (by decide) (by decide) (by decide) (by decide)

/-!  ### Claim C3 — fingerprint store loading  -/

/-- The C3 counterexample payload: parseable, has `technologies`, but the
required key `categories` is absent. -/
def c3Payload : RawPayload := { technologies := some [], categories := none }

/-- Claim C3 counterexample: a parseable payload missing the `categories`
top-level key loads successfully — `loadFingerprints` never inspects
`categories`, so startup does not fail. -/
theorem load_missing_categories_counterexample :
    c3Payload.categories = none ∧
    loadFingerprints (some c3Payload) = .ok c3Payload := by
  exact ⟨rfl, rfl⟩

/-- Claim C3 (amended): loading fails exactly when the payload cannot be
parsed or the `technologies` key is absent; the `categories` key is not
validated at load time. -/
theorem load_ok_iff (p : Option RawPayload) :
    (∃ q, loadFingerprints p = .ok q) ↔
    (∃ q, p = some q ∧ q.technologies.isSome = true) := by
  cases p with
  | none => simp [loadFingerprints]
  | some q => cases h : q.technologies <;> simp [loadFingerprints, h]

/-- Witness for the amended C3 theorem at a concrete payload. -/
theorem load_ok_iff_witness :
    (∃ q, loadFingerprints (some c3Payload) = .ok q) ↔
    (∃ q, some c3Payload = some q ∧ q.technologies.isSome = true) :=
  load_ok_iff (some c3Payload)

/-!  ### Claim C10 — fallback category id "1"  -/

/-- The C10 counterexample store: the category table has an entry for key
"1" whose name is the empty string. -/
def c10Db : WappalyzerDatabase :=
  { categories := [("1", "")], technologies := [] }

/-- Claim C10 counterexample: with `cats` empty the detection is filed under
category id "1"; the key "1" exists in the table, yet because its name is
the falsy empty string the code uses "Miscellaneous" — contradicting the
claim that "Miscellaneous" appears only when key "1" is absent. -/
theorem empty_cats_category_counterexample :
    lookupKey c10Db.categories "1" = some "" ∧
    (addDetection c10Db [] "T" { cats := [] } 1 .header).map
      Detection.category = ["Miscellaneous"] := by
  refine ⟨by decide, by decide⟩

/-- Claim C10 (amended): a rule with an empty category-id list is filed
under category id "1"; the category name is the table's entry for key "1"
whenever that entry exists with a non-empty name, and "Miscellaneous" when
key "1" is absent (or its name is the empty string). -/
theorem empty_cats_category (db : WappalyzerDatabase) (dets : List Detection)
    (name : String) (tech : WappalyzerTechnology) (conf : ℚ) (src : Source)
    (hc : tech.cats = []) (hn : hasNameL dets name = false) :
    ∃ d, addDetection db dets name tech conf src = dets ++ [d] ∧
      d.categoryId = some 1 ∧
      (∀ nm, lookupKey db.categories "1" = some nm → nm ≠ "" →
        d.category = nm) ∧
      (lookupKey db.categories "1" = none → d.category = "Miscellaneous") := by
  have hid : headCatId tech = "1" := by simp [headCatId, hc]
  refine ⟨mkDetection db tech name conf src,
    addDetection_fresh db dets name tech conf src hn, ?_, ?_, ?_⟩
  · simp [mkDetection, hid, parseIntDigits]
  · intro nm hnm hne
    simp [mkDetection, hid, categoryNameFor, hnm, hne]
  · intro hnone
    simp [mkDetection, hid, categoryNameFor, hnone]

/-!  ### Claim C2 — fixed evidence order with first-match attribution  -/

/-- Claim C2: the per-technology cascade of DetectorService.detect equals a
first-match search along the fixed order header, cookie, script, html,
meta; a fresh technology whose first matching kind is `src` is recorded
with source exactly `src`; in particular a technology matchable by both
header and cookie evidence is recorded with source header, never cookie. -/
theorem detect_evidence_order (rt : RegexTest) (tech : WappalyzerTechnology)
    (snap : CrawlResult) :
    firstMatch rt tech snap = evidenceOrder.find? (specFires rt tech snap) ∧
    (∀ (db : WappalyzerDatabase) (dets : List Detection) (name : String)
       (src : Source), firstMatch rt tech snap = some src →
       hasNameL dets name = false →
       ∃ d, detectTech rt db snap dets name tech = dets ++ [d] ∧
         d.source = src ∧ d.name = name) ∧
    (∀ (db : WappalyzerDatabase) (dets : List Detection) (name : String),
       specFires rt tech snap .header = true →
       specFires rt tech snap .cookie = true →
       hasNameL dets name = false →
       ∃ d, detectTech rt db snap dets name tech = dets ++ [d] ∧
         d.source = .header ∧ d.source ≠ .cookie) := by
  have horder : firstMatch rt tech snap =
      evidenceOrder.find? (specFires rt tech snap) := by
    by_cases h1 : checkHeader rt tech snap <;>
      by_cases h2 : checkCookie rt tech snap <;>
        by_cases h3 : checkScript rt tech snap <;>
          by_cases h4 : checkHtml rt tech snap <;>
            by_cases h5 : checkMeta rt tech snap <;>
              simp [firstMatch, evidenceOrder, specFires, List.find?,
                h1, h2, h3, h4, h5]
  have hrec : ∀ (db : WappalyzerDatabase) (dets : List Detection)
      (name : String) (src : Source), firstMatch rt tech snap = some src →
      hasNameL dets name = false →
      ∃ d, detectTech rt db snap dets name tech = dets ++ [d] ∧
        d.source = src ∧ d.name = name := by
    intro db dets name src hfm hn
    refine ⟨mkDetection db tech name 1 src, ?_, rfl, rfl⟩
    rw [detectTech, hfm]
    exact addDetection_fresh db dets name tech 1 src hn
  refine ⟨horder, hrec, ?_⟩
  intro db dets name hh hc hn
  have hfm : firstMatch rt tech snap = some .header := by
    have : checkHeader rt tech snap = true := hh
    simp [firstMatch, this]
  obtain ⟨d, hd, hds, _⟩ := hrec db dets name .header hfm hn
  exact ⟨d, hd, hds, by rw [hds]; decide⟩

/-- The technology of the C2 witness: matchable by both a header and a
cookie rule on the witness snapshot. -/
def c2Tech : WappalyzerTechnology :=
  { cats := ["1"], headers := some [("X-H", "v")],
    cookies := some [("sid", "v")] }

/-- The snapshot of the C2 witness. -/
def c2Snap : CrawlResult :=
  { headers := [("x-h", "val")], cookies := ["sid=val"] }

/-- Witness for the C2 theorem: under the all-matching oracle the witness
technology fires on both header and cookie evidence, and the recorded
source is header. -/
theorem detect_evidence_order_witness :
    specFires rtTrue c2Tech c2Snap .header = true ∧
    specFires rtTrue c2Tech c2Snap .cookie = true ∧
    hasNameL [] "T" = false ∧
    (∃ d, detectTech rtTrue { categories := [], technologies := [] } c2Snap
        [] "T" c2Tech = [] ++ [d] ∧
      d.source = .header ∧ d.source ≠ .cookie) :=
  ⟨by decide, by decide, rfl,
    (detect_evidence_order rtTrue c2Tech c2Snap).2.2
      { categories := [], technologies := [] } [] "T"
      (by decide) (by decide) rfl⟩

/-- Witness for the amended C10 theorem at concrete inputs. -/
theorem empty_cats_category_witness :
    ({ cats := [] } : WappalyzerTechnology).cats = [] ∧
    hasNameL [] "T" = false ∧
    (∃ d, addDetection { categories := [("1", "Custom")], technologies := [] }
        [] "T" { cats := [] } 1 .header = [] ++ [d] ∧
      d.categoryId = some 1 ∧
      (∀ nm, lookupKey ([("1", "Custom")] : List (String × String)) "1" =
          some nm → nm ≠ "" → d.category = nm) ∧
      (lookupKey ([("1", "Custom")] : List (String × String)) "1" = none →
        d.category = "Miscellaneous")) :=
  ⟨rfl, rfl, empty_cats_category
    { categories := [("1", "Custom")], technologies := [] } [] "T"
    { cats := [] } 1 .header rfl rfl⟩

/-!  ### Implication resolution: append-only growth and termination  -/

/-- Shape of one append-only step of the implication scan: the accumulator
is only ever extended, and every appended detection carries a name that has
a rule in the store and was absent from the accumulator. -/
def GrowStep (db : WappalyzerDatabase)
    (f : List Detection → List Detection) : Prop :=
  ∀ acc, ∃ t, f acc = acc ++ t ∧
    ∀ d ∈ t, (lookupKey db.technologies d.name).isSome = true ∧
      hasNameL acc d.name = false

lemma growStep_addImplied (db : WappalyzerDatabase) (nm : String) :
    GrowStep db (fun acc => addImplied db acc nm) := by
  intro acc
  cases hn : hasNameL acc nm with
  | true => exact ⟨[], by simp [addImplied, hn]⟩
  | false =>
    cases hl : lookupKey db.technologies nm with
    | none => exact ⟨[], by simp [addImplied, hn, hl]⟩
    | some tech =>
      refine ⟨[mkDetection db tech nm 1 .implied], ?_, ?_⟩
      · simp only [addImplied, hn, hl]
        simp [addDetection_fresh db acc nm tech 1 .implied hn]
      · intro d hd
        rw [List.mem_singleton] at hd
        subst hd
        exact ⟨by simp [mkDetection, hl], by simp [mkDetection, hn]⟩

lemma growStep_foldl {β : Type} (db : WappalyzerDatabase)
    (g : List Detection → β → List Detection)
    (hg : ∀ b, GrowStep db (fun acc => g acc b)) :
    ∀ (l : List β), GrowStep db (fun acc => l.foldl g acc)
  | [] => fun acc => ⟨[], by simp⟩
  | b :: l => by
    intro acc
    obtain ⟨t1, h1, h1p⟩ := hg b acc
    obtain ⟨t2, h2, h2p⟩ := growStep_foldl db g hg l (g acc b)
    simp only at h1 h2 h2p
    refine ⟨t1 ++ t2, ?_, ?_⟩
    · show List.foldl g acc (b :: l) = acc ++ (t1 ++ t2)
      rw [List.foldl_cons, h2, h1, List.append_assoc]
    · intro d hd
      rcases List.mem_append.mp hd with hd1 | hd2
      · exact h1p d hd1
      · obtain ⟨hkey, hfresh⟩ := h2p d hd2
        rw [h1] at hfresh
        refine ⟨hkey, ?_⟩
        cases hn : hasNameL acc d.name with
        | false => rfl
        | true => exact absurd (hasNameL_mono t1 hn) (by simp [hfresh])

lemma growStep_procDet (db : WappalyzerDatabase) (det : Detection) :
    GrowStep db (fun acc => procDet db acc det) := by
  intro acc
  unfold procDet
  cases hl : lookupKey db.technologies det.name with
  | none => exact ⟨[], by simp⟩
  | some tech =>
    exact growStep_foldl db (addImplied db)
      (fun nm => growStep_addImplied db nm) (impliesList tech) acc

lemma impPass_shape (db : WappalyzerDatabase) (dets : List Detection) :
    ∃ t, impPass db dets = dets ++ t ∧
      ∀ d ∈ t, (lookupKey db.technologies d.name).isSome = true ∧
        hasNameL dets d.name = false :=
  growStep_foldl db (procDet db) (fun det => growStep_procDet db det)
    dets dets

lemma countP_le_of_imp {α : Type} (p q : α → Bool) :
    ∀ (l : List α), (∀ x ∈ l, q x = true → p x = true) →
    l.countP q ≤ l.countP p
  | [], _ => le_refl _
  | a :: l, h => by
    rw [List.countP_cons, List.countP_cons]
    have ht : l.countP q ≤ l.countP p :=
      countP_le_of_imp p q l (fun x hx => h x (List.mem_cons_of_mem a hx))
    cases hq : q a with
    | false => cases hp : p a <;> simp <;> omega
    | true =>
      have hp : p a = true := h a (List.mem_cons_self a l) hq
      simp [hp]
      omega

lemma countP_lt_of_mem {α : Type} (p q : α → Bool) :
    ∀ (l : List α), (∀ x ∈ l, q x = true → p x = true) →
    ∀ x ∈ l, p x = true → q x = false → l.countP q < l.countP p
  | [], _, x, hx, _, _ => absurd hx (List.not_mem_nil x)
  | a :: l, himp, x, hx, hpx, hqx => by
    rw [List.countP_cons, List.countP_cons]
    have htle : l.countP q ≤ l.countP p :=
      countP_le_of_imp p q l (fun y hy => himp y (List.mem_cons_of_mem a hy))
    rcases List.mem_cons.mp hx with rfl | hx'
    · simp [hpx, hqx]
      omega
    · have htlt : l.countP q < l.countP p :=
        countP_lt_of_mem p q l
          (fun y hy => himp y (List.mem_cons_of_mem a hy)) x hx' hpx hqx
      cases hq : q a with
      | false => cases hp : p a <;> simp <;> omega
      | true =>
        have hp : p a = true := himp a (List.mem_cons_self a l) hq
        simp [hp]
        omega

lemma missingCount_lt (db : WappalyzerDatabase) (dets t : List Detection)
    (hne : t ≠ [])
    (hp : ∀ d ∈ t, (lookupKey db.technologies d.name).isSome = true ∧
      hasNameL dets d.name = false) :
    missingCount db (dets ++ t) < missingCount db dets := by
  cases t with
  | nil => exact absurd rfl hne
  | cons a t' =>
    obtain ⟨hkey, hnew⟩ := hp a (List.mem_cons_self a t')
    obtain ⟨e, he, hee⟩ := (lookupKey_isSome _ _).mp hkey
    unfold missingCount
    refine countP_lt_of_mem _ _ _ ?_ e he ?_ ?_
    · intro x hx hqx
      rw [Bool.not_eq_true'] at hqx ⊢
      cases hh : hasNameL dets x.1 with
      | false => rfl
      | true => exact absurd (hasNameL_mono (a :: t') hh) (by simp [hqx])
    · rw [hee, Bool.not_eq_true']
      exact hnew
    · rw [Bool.not_eq_false', hee, hasNameL_append]
      simp [hasNameL_of_mem (List.mem_cons_self a t')]

lemma impPass_eq_of_length (db : WappalyzerDatabase) (dets : List Detection)
    (h : (impPass db dets).length = dets.length) : impPass db dets = dets := by
  obtain ⟨t, ht, _⟩ := impPass_shape db dets
  rw [ht, List.length_append] at h
  have : t = [] := List.length_eq_zero.mp (by omega)
  rw [ht, this, List.append_nil]

lemma impLoop_fix (db : WappalyzerDatabase) (dets : List Detection)
    (h : impPass db dets = dets) : ∀ fuel, impLoop db fuel dets = dets
  | 0 => rfl
  | fuel + 1 => by simp [impLoop, h]

lemma impLoop_stable (db : WappalyzerDatabase) :
    ∀ (k : Nat), ∀ (dets : List Detection), missingCount db dets ≤ k →
    ∀ n, impLoop db (k + 1 + n) dets = impLoop db (k + 1) dets := by
  intro k
  induction k with
  | zero =>
    intro dets h0 n
    have hfix : impPass db dets = dets := by
      obtain ⟨t, ht, hpr⟩ := impPass_shape db dets
      cases t with
      | nil => rw [ht, List.append_nil]
      | cons a t' =>
        exfalso
        obtain ⟨hkey, hnew⟩ := hpr a (List.mem_cons_self a t')
        obtain ⟨e, he, hee⟩ := (lookupKey_isSome _ _).mp hkey
        have hz : missingCount db dets = 0 := Nat.le_zero.mp h0
        have := List.countP_eq_zero.mp hz e he
        rw [Bool.not_eq_true', Bool.not_eq_false] at this
        rw [hee, hnew] at this
        exact Bool.false_ne_true this
    rw [impLoop_fix db dets hfix, impLoop_fix db dets hfix]
  | succ k ih =>
    intro dets h n
    by_cases hlen : (impPass db dets).length = dets.length
    · have hfix := impPass_eq_of_length db dets hlen
      rw [impLoop_fix db dets hfix, impLoop_fix db dets hfix]
    · have hstep : ∀ m, impLoop db (m + 1) dets =
          impLoop db m (impPass db dets) := by
        intro m
        simp [impLoop, hlen]
      have harr : k + 1 + 1 + n = (k + 1 + n) + 1 := by omega
      rw [harr, hstep, hstep]
      obtain ⟨t, ht, hpr⟩ := impPass_shape db dets
      have hne : t ≠ [] := by
        rintro rfl
        rw [List.append_nil] at ht
        exact hlen (by rw [ht])
      have hlt : missingCount db (impPass db dets) < missingCount db dets := by
        rw [ht]
        exact missingCount_lt db dets t hne hpr
      exact ih (impPass db dets) (by omega) n

/-!  ### Claim C5 — termination of implication resolution  -/

/-- Rule A of the C5 cyclic-implication store: A implies B. -/
def c5TechA : WappalyzerTechnology := { cats := ["1"], implies := some (.str "B") }

/-- Rule B of the C5 cyclic-implication store: B implies A. -/
def c5TechB : WappalyzerTechnology := { cats := ["1"], implies := some (.str "A") }

/-- The C5 store with the implication cycle A implies B implies A. -/
def c5Db : WappalyzerDatabase :=
  { categories := [("1", "CatOne")],
    technologies := [("A", c5TechA), ("B", c5TechB)] }

/-- The starting detection set of the C5 example: only A. -/
def c5DetA : Detection :=
  { name := "A", category := "CatOne", categoryId := some 1, confidence := 1,
    source := .header }

/-- Claim C5: for every finite store (cyclic implies edges included) the
`while (changed)` loop of processImplications reaches its fixed point
within `missingCount db dets + 1` scans — any larger scan budget returns
the same result, so the unbounded source loop terminates; in particular,
starting from the detection set containing only A in a store where A
implies B and B implies A, resolution returns exactly the names A, B. -/
theorem implications_terminate :
    (∀ (db : WappalyzerDatabase) (dets : List Detection) (n : Nat),
       missingCount db dets + 1 ≤ n →
       impLoop db n dets = processImplications db dets) ∧
    (processImplications c5Db [c5DetA]).map Detection.name = ["A", "B"] := by
  constructor
  · intro db dets n h
    obtain ⟨m, rfl⟩ : ∃ m, n = missingCount db dets + 1 + m :=
      ⟨n - (missingCount db dets + 1), by omega⟩
    exact impLoop_stable db (missingCount db dets) dets le_rfl m
  · decide

/-- Witness for the C5 theorem: a concrete oversized scan budget agrees
with the loop's result on the cyclic store. -/
theorem implications_terminate_witness :
    missingCount c5Db [c5DetA] + 1 ≤ 7 ∧
    impLoop c5Db 7 [c5DetA] = processImplications c5Db [c5DetA] :=
  ⟨by decide, implications_terminate.1 c5Db [c5DetA] 7 (by decide)⟩

/-!  ### Claim C6 — idempotence on closed detection sets  -/

lemma foldl_id_of_mem {β : Type} (g : List Detection → β → List Detection)
    (a : List Detection) :
    ∀ (l : List β), (∀ b ∈ l, g a b = a) → l.foldl g a = a
  | [], _ => rfl
  | b :: l, h => by
    rw [List.foldl_cons, h b (List.mem_cons_self b l)]
    exact foldl_id_of_mem g a l (fun x hx => h x (List.mem_cons_of_mem b hx))

lemma addImplied_blocked (db : WappalyzerDatabase) (dets : List Detection)
    (nm : String)
    (h : (!(lookupKey db.technologies nm).isSome || hasNameL dets nm) = true) :
    addImplied db dets nm = dets := by
  cases hn : hasNameL dets nm with
  | true => simp [addImplied, hn]
  | false =>
    rw [Bool.or_eq_true, Bool.not_eq_true'] at h
    rcases h with h | h
    · cases hl : lookupKey db.technologies nm with
      | none => simp [addImplied, hn, hl]
      | some tech => rw [hl] at h; simp at h
    · rw [hn] at h
      exact absurd h (by simp)

/-- Claim C6: implication resolution is idempotent — on a detection set
already closed under the store's implies edges the resolver adds nothing
and returns the set unchanged. -/
theorem resolver_idempotent (db : WappalyzerDatabase) (dets : List Detection)
    (h : isClosed db dets = true) : processImplications db dets = dets := by
  have hfix : impPass db dets = dets := by
    unfold impPass
    apply foldl_id_of_mem
    intro det hdet
    unfold procDet
    cases hl : lookupKey db.technologies det.name with
    | none => rfl
    | some tech =>
      apply foldl_id_of_mem
      intro nm hnm
      apply addImplied_blocked
      have hall := List.all_eq_true.mp h det hdet
      simp only [hl] at hall
      exact List.all_eq_true.mp hall nm hnm
  show impLoop db (missingCount db dets + 1) dets = dets
  exact impLoop_fix db dets hfix _

/-- The C6 witness store: X implies a name with no rule in the store. -/
def c6Db : WappalyzerDatabase :=
  { categories := [],
    technologies := [("X", { cats := ["1"], implies := some (.str "Y") })] }

/-- The C6 witness detection set, closed for `c6Db`. -/
def c6Det : Detection :=
  { name := "X", category := "Miscellaneous", categoryId := some 1,
    confidence := 1, source := .html }

/-- Witness for the C6 theorem at a concrete closed set. -/
theorem resolver_idempotent_witness :
    isClosed c6Db [c6Det] = true ∧
    processImplications c6Db [c6Det] = [c6Det] :=
  ⟨by decide, resolver_idempotent c6Db [c6Det] (by decide)⟩

/-!  ### Claim C7 — at most one detection per technology name  -/

lemma namesNodup_addDetection (db : WappalyzerDatabase) (dets : List Detection)
    (name : String) (tech : WappalyzerTechnology) (conf : ℚ) (src : Source)
    (h : (dets.map Detection.name).Nodup) :
    ((addDetection db dets name tech conf src).map Detection.name).Nodup := by
  cases hn : hasNameL dets name with
  | true => simpa [addDetection, hn] using h
  | false =>
    rw [addDetection_fresh db dets name tech conf src hn]
    have hnm : name ∉ dets.map Detection.name :=
      (hasNameL_eq_false_iff dets name).mp hn
    simp [mkDetection, List.nodup_append, h, hnm]

lemma namesNodup_addImplied (db : WappalyzerDatabase) (dets : List Detection)
    (nm : String) (h : (dets.map Detection.name).Nodup) :
    ((addImplied db dets nm).map Detection.name).Nodup := by
  unfold addImplied
  cases hn : hasNameL dets nm with
  | true => simpa [hn] using h
  | false =>
    cases hl : lookupKey db.technologies nm with
    | none => simpa [hn, hl] using h
    | some tech =>
      simp only [hn, hl]
      simp only [Bool.false_eq_true, if_false]
      exact namesNodup_addDetection db dets nm tech 1 .implied h

lemma namesNodup_procDet (db : WappalyzerDatabase) (dets : List Detection)
    (det : Detection) (h : (dets.map Detection.name).Nodup) :
    ((procDet db dets det).map Detection.name).Nodup := by
  unfold procDet
  cases hl : lookupKey db.technologies det.name with
  | none => exact h
  | some tech =>
    exact foldl_preserve (fun a => (a.map Detection.name).Nodup)
      (addImplied db) (fun a b ha => namesNodup_addImplied db a b ha)
      (impliesList tech) dets h

lemma namesNodup_impLoop (db : WappalyzerDatabase) :
    ∀ (fuel : Nat) (dets : List Detection), (dets.map Detection.name).Nodup →
    ((impLoop db fuel dets).map Detection.name).Nodup
  | 0, _, h => h
  | fuel + 1, dets, h => by
    rw [impLoop]
    by_cases hlen : (impPass db dets).length = dets.length
    · simpa [hlen] using h
    · have hpass : ((impPass db dets).map Detection.name).Nodup :=
        foldl_preserve (fun a => (a.map Detection.name).Nodup)
          (procDet db) (fun a b ha => namesNodup_procDet db a b ha)
          dets dets h
      simpa [hlen] using namesNodup_impLoop db fuel (impPass db dets) hpass

/-- Claim C7: one full run of the match engine — direct evidence matching
over every technology followed by implication resolution — never records
two detections with the same technology name. -/
theorem detection_names_nodup (rt : RegexTest) (db : WappalyzerDatabase)
    (snap : CrawlResult) : ((detect rt db snap).map Detection.name).Nodup := by
  unfold detect processImplications
  apply namesNodup_impLoop
  unfold detectDirect
  exact foldl_preserve (fun dets => (dets.map Detection.name).Nodup)
    (fun dets p => detectTech rt db snap dets p.1 p.2)
    (fun a b ha => by
      show ((detectTech rt db snap a b.1 b.2).map Detection.name).Nodup
      unfold detectTech
      cases hfm : firstMatch rt b.2 snap with
      | none => exact ha
      | some src =>
        simp only [hfm]
        exact namesNodup_addDetection db a b.1 b.2 1 src ha)
    db.technologies [] (by simp)

/-!  ### Claim C4 — the short-body escalation signal  -/

lemma countNonWs_dropWhile (l : List Char) :
    countNonWs (l.dropWhile jsWs) = countNonWs l := by
  induction l with
  | nil => rfl
  | cons c cs ih =>
    cases hc : jsWs c with
    | true =>
      rw [List.dropWhile_cons]
      simp only [hc, if_true]
      rw [ih]
      simp [countNonWs, List.filter_cons, hc]
    | false => simp [List.dropWhile_cons, hc]

lemma countNonWs_reverse (l : List Char) :
    countNonWs l.reverse = countNonWs l := by
  simp [countNonWs, List.filter_reverse]

lemma countNonWs_le_trim (l : List Char) :
    countNonWs l ≤ (trimJs l).length := by
  have h1 : countNonWs (trimJs l) = countNonWs l := by
    unfold trimJs
    rw [countNonWs_reverse, countNonWs_dropWhile, countNonWs_reverse,
      countNonWs_dropWhile]
  calc countNonWs l = countNonWs (trimJs l) := h1.symm
    _ ≤ (trimJs l).length := List.length_filter_le _ _

/-- Claim C4 (amended): when no SPA-signal regex fires and the HTML has a
`<body>` capture, needsBrowser is true exactly when the script-stripped
body content has trimmed length below 200 — a count that includes interior
whitespace; consequently a body with 200 or more non-whitespace characters
(and no other signal) yields false, but fewer than 200 non-whitespace
characters alone does not force true. -/
theorem short_body_escalation (html body : List Char)
    (h1 : spaSignals html = false) (h2 : extractBody html = some body) :
    (needsBrowser html = true ↔ (trimJs (stripScripts body)).length < 200) ∧
    (200 ≤ countNonWs (stripScripts body) → needsBrowser html = false) := by
  have hnb : needsBrowser html =
      decide ((trimJs (stripScripts body)).length < 200) := by
    unfold needsBrowser
    rw [h1, h2]
    simp
  constructor
  · rw [hnb]
    exact decide_eq_true_iff
  · intro hge
    rw [hnb]
    have hle := countNonWs_le_trim (stripScripts body)
    simp only [decide_eq_false_iff_not, not_lt]
    omega

/-- The body text of the C4 counterexample: 101 letters separated by single
spaces — 201 characters of which only 101 are non-whitespace. -/
def c4Body : String := "a" ++ String.join (List.replicate 100 " a")

/-- The HTML of the C4 counterexample. -/
def c4Html : String := "<body>" ++ c4Body ++ "</body>"

set_option maxRecDepth 40000 in
/-- Claim C4 counterexample: no SPA signal fires and the body's
script-stripped content has fewer than 200 non-whitespace characters, yet
needsBrowser returns false — the code measures trimmed length including
interior whitespace, not non-whitespace characters. -/
theorem short_body_nonws_counterexample :
    spaSignals c4Html.data = false ∧
    extractBody c4Html.data = some c4Body.data ∧
    countNonWs (stripScripts c4Body.data) < 200 ∧
    needsBrowser c4Html.data = false := by
  refine ⟨by decide, by decide, by decide, by decide⟩

/-- The HTML of the C4 witness. -/
def w4Html : String := "<body>hi</body>"

/-- Witness for the amended C4 theorem at a concrete snapshot. -/
theorem short_body_escalation_witness :
    spaSignals w4Html.data = false ∧
    extractBody w4Html.data = some "hi".data ∧
    ((needsBrowser w4Html.data = true ↔
        (trimJs (stripScripts "hi".data)).length < 200) ∧
     (200 ≤ countNonWs (stripScripts "hi".data) →
        needsBrowser w4Html.data = false)) :=
  ⟨by decide, by decide,
    short_body_escalation w4Html.data "hi".data (by decide) (by decide)⟩

/-!  ### Normalizer state invariant (claims C8 and C9)  -/

/-- Invariant of the accumulator state of NormalizerService.normalize:
category keys are unique; the technology lists and confidence lists are
aligned pairwise, each listed name paired with the confidence of a
detection of that name filed under that category; every technology list is
duplicate-free and non-empty. -/
def NormInv (dets : List Detection) (st : NormState) : Prop :=
  (st.technologies.map Prod.fst).Nodup ∧
  List.Forall₂ (fun (a : String × List String) (b : String × List ℚ) =>
    a.1 = b.1 ∧
    List.Forall₂ (fun nm s => ∃ d ∈ dets, d.name = nm ∧
      resolvedCategory d = a.1 ∧ s = d.confidence) a.2 b.2)
    st.technologies st.categoryConfidences ∧
  ∀ p ∈ st.technologies, p.2.Nodup ∧ p.2 ≠ []

lemma updAssoc_keys {α : Type} (m : List (String × α)) (k : String)
    (f : α → α) : (updAssoc m k f).map Prod.fst = m.map Prod.fst := by
  unfold updAssoc
  rw [List.map_map]
  apply List.map_congr_left
  intro p _
  by_cases h : p.1 = k <;> simp [h]

lemma forall₂_map_map {α β α2 β2 : Type} {R : α → β → Prop}
    {S : α2 → β2 → Prop} (g1 : α → α2) (g2 : β → β2) :
    ∀ {l1 : List α} {l2 : List β}, List.Forall₂ R l1 l2 →
    (∀ a b, R a b → S (g1 a) (g2 b)) →
    List.Forall₂ S (l1.map g1) (l2.map g2) := by
  intro l1 l2 h hS
  induction h with
  | nil => exact List.Forall₂.nil
  | cons hab _ ih => exact List.Forall₂.cons (hS _ _ hab) ih

lemma forall₂_mem_right {α β : Type} {R : α → β → Prop} :
    ∀ {l1 : List α} {l2 : List β}, List.Forall₂ R l1 l2 →
    ∀ b ∈ l2, ∃ a ∈ l1, R a b := by
  intro l1 l2 h
  induction h with
  | nil => intro b hb; simp at hb
  | cons hab _ ih =>
    intro b hb
    rcases List.mem_cons.mp hb with rfl | hb'
    · exact ⟨_, List.mem_cons_self _ _, hab⟩
    · obtain ⟨a, ha, har⟩ := ih b hb'
      exact ⟨a, List.mem_cons_of_mem _ ha, har⟩

lemma forall₂_append_own {α β : Type} {R : α → β → Prop} :
    ∀ {l1 : List α} {l2 : List β}, List.Forall₂ R l1 l2 →
    ∀ {u1 : List α} {u2 : List β}, List.Forall₂ R u1 u2 →
    List.Forall₂ R (l1 ++ u1) (l2 ++ u2) := by
  intro l1 l2 h
  induction h with
  | nil =>
    intro u1 u2 hu
    simpa using hu
  | cons hab _ ih =>
    intro u1 u2 hu
    exact List.Forall₂.cons hab (ih hu)

lemma normStep_inv (dets : List Detection) (st : NormState) (d : Detection)
    (hd : d ∈ dets) (h : NormInv dets st) : NormInv dets (normStep st d) := by
  obtain ⟨hnd, hf2, hvals⟩ := h
  unfold normStep
  split
  next hl =>
    have hnotin : resolvedCategory d ∉ st.technologies.map Prod.fst := by
      intro hmem
      obtain ⟨p, hp, hpk⟩ := List.mem_map.mp hmem
      exact lookupKey_eq_none _ _ hl p hp hpk
    refine ⟨?_, ?_, ?_⟩
    · rw [List.map_append]
      simp only [List.map_cons, List.map_nil]
      refine List.Nodup.append hnd (List.nodup_singleton _) ?_
      intro x hx hx2
      rw [List.mem_singleton] at hx2
      subst hx2
      exact hnotin hx
    · refine forall₂_append_own hf2 ?_
      exact List.Forall₂.cons
        ⟨rfl, List.Forall₂.cons ⟨d, hd, rfl, rfl, rfl⟩ List.Forall₂.nil⟩
        List.Forall₂.nil
    · intro p hp
      rcases List.mem_append.mp hp with hp' | hp'
      · exact hvals p hp'
      · rw [List.mem_singleton] at hp'
        subst hp'
        exact ⟨by simp, by simp⟩
  next lst hl =>
    split
    next hmem => exact ⟨hnd, hf2, hvals⟩
    next hmem =>
      refine ⟨?_, ?_, ?_⟩
      · rw [updAssoc_keys]
        exact hnd
      · apply forall₂_map_map _ _ hf2
        intro a b hab
        obtain ⟨hkeys, hinner⟩ := hab
        by_cases hak : a.1 = resolvedCategory d
        · have hbk : b.1 = resolvedCategory d := hkeys ▸ hak
          rw [if_pos hak, if_pos hbk]
          refine ⟨hkeys, ?_⟩
          refine forall₂_append_own hinner ?_
          exact List.Forall₂.cons ⟨d, hd, rfl, by rw [hak], rfl⟩
            List.Forall₂.nil
        · have hbk : b.1 ≠ resolvedCategory d := hkeys ▸ hak
          rw [if_neg hak, if_neg hbk]
          exact ⟨hkeys, hinner⟩
      · intro p hp
        obtain ⟨p0, hp0, hp0e⟩ := List.mem_map.mp hp
        by_cases hpk : p0.1 = resolvedCategory d
        · rw [← hp0e, if_pos hpk]
          have hval0 := hvals p0 hp0
          have hlst : p0.2 = lst :=
            lookupKey_unique _ _ _ hnd hl p0 hp0 hpk
          refine ⟨?_, by simp⟩
          refine List.Nodup.append hval0.1 (List.nodup_singleton _) ?_

          intro x hx hx2
          rw [List.mem_singleton] at hx2
          subst hx2
          rw [hlst] at hx
          exact hmem hx
        · rw [← hp0e, if_neg hpk]
          exact hvals p0 hp0

lemma normInv_foldl (dets : List Detection) :
    ∀ (l : List Detection), (∀ x ∈ l, x ∈ dets) → ∀ st, NormInv dets st →
    NormInv dets (l.foldl normStep st)
  | [], _, _, h => h
  | d :: l, hsub, st, h => by
    rw [List.foldl_cons]
    exact normInv_foldl dets l
      (fun x hx => hsub x (List.mem_cons_of_mem d hx))
      (normStep st d) (normStep_inv dets st d (hsub d (List.mem_cons_self d l)) h)

lemma normInv_state (dets : List Detection) :
    NormInv dets (dets.foldl normStep ⟨[], []⟩) :=
  normInv_foldl dets dets (fun _ hx => hx) ⟨[], []⟩
    ⟨List.nodup_nil, List.Forall₂.nil, by simp⟩

/-!  ### Claim C9 — deduplicated, sorted technology lists  -/

/-- Claim C9: every category list produced by NormalizerService.normalize
carries no duplicate technology names and is sorted ascending under the
ordinal (code-point lexicographic) string order. -/
theorem normalize_sorted_nodup (dets : List Detection)
    (p : String × List String) (hp : p ∈ (normalize dets).technologies) :
    p.2.Nodup ∧ List.Sorted (· ≤ ·) p.2 := by
  obtain ⟨hnd, hf2, hvals⟩ := normInv_state dets
  unfold normalize at hp
  simp only [List.mem_map] at hp
  obtain ⟨q, hq, rfl⟩ := hp
  refine ⟨?_, ?_⟩
  · exact ((List.perm_insertionSort (· ≤ ·) q.2).nodup_iff).mpr (hvals q hq).1
  · exact List.sorted_insertionSort (· ≤ ·) q.2

/-- The detection constructor of the C9 witness. -/
def w9Det (n : String) : Detection :=
  { name := n, category := "Misc", categoryId := some 1, confidence := 1,
    source := .header }

/-- Witness for the C9 theorem: out-of-order input comes out sorted and
deduplicated. -/
theorem normalize_sorted_nodup_witness :
    ("misc", ["TechA", "TechB"]) ∈
      (normalize [w9Det "TechB", w9Det "TechA", w9Det "TechB"]).technologies ∧
    (["TechA", "TechB"].Nodup ∧ List.Sorted (· ≤ ·) ["TechA", "TechB"]) :=
  ⟨by decide,
    normalize_sorted_nodup [w9Det "TechB", w9Det "TechA", w9Det "TechB"]
      ("misc", ["TechA", "TechB"]) (by decide)⟩

/-!  ### Claim C8 — per-category confidence is the rounded mean  -/

/-- Claim C8: every per-category confidence reported by normalize is
`round2` (round half up to two decimals) of the arithmetic mean of that
category's per-technology confidence values — one value per listed
technology, each being the confidence of a detection of that technology in
that category (the technology list is reported sorted, i.e. as a
permutation of the paired name list). -/
theorem category_confidence_mean (dets : List Detection) (_hne : dets ≠ [])
    (cat : String) (q : ℚ) (hq : (cat, q) ∈ (normalize dets).confidence) :
    ∃ names : List String, ∃ scores : List ℚ,
      List.Forall₂ (fun nm s => ∃ d ∈ dets, d.name = nm ∧
        resolvedCategory d = cat ∧ s = d.confidence) names scores ∧
      names.Nodup ∧ names ≠ [] ∧
      (∃ ts, lookupKey (normalize dets).technologies cat = some ts ∧
        List.Perm ts names) ∧
      q = round2 (scores.sum / (scores.length : ℚ)) := by
  obtain ⟨hnd, hf2, hvals⟩ := normInv_state dets
  unfold normalize at hq
  simp only [List.mem_map] at hq
  obtain ⟨pq, hpq, heq⟩ := hq
  obtain ⟨hcat, hqv⟩ := Prod.ext_iff.mp heq
  obtain ⟨a, ha, hak, hinner⟩ := forall₂_mem_right hf2 pq hpq
  have hak2 : a.1 = cat := by rw [hak, hcat]
  refine ⟨a.2, pq.2, hak2 ▸ hinner, (hvals a ha).1, (hvals a ha).2, ?_,
    hqv.symm⟩
  refine ⟨(a.2.insertionSort (· ≤ ·)), ?_, List.perm_insertionSort _ _⟩
  show lookupKey ((dets.foldl normStep ⟨[], []⟩).technologies.map
    (fun p => (p.1, p.2.insertionSort (· ≤ ·)))) cat =
    some (a.2.insertionSort (· ≤ ·))
  rw [lookupKey_map_val]
  have hlk : lookupKey (dets.foldl normStep ⟨[], []⟩).technologies cat =
      some a.2 := by
    apply lookupKey_of_mem_nodup _ _ _ hnd
    have ha2 : ((cat, a.2) : String × List String) = a := by
      rw [← hak2]
    rw [ha2]
    exact ha
  rw [hlk]
  rfl

/-- The detection constructor of the C8 witness. -/
def w8Det (n : String) (c : ℚ) : Detection :=
  { name := n, category := "Misc", categoryId := some 1, confidence := c,
    source := .header }

set_option maxRecDepth 20000 in
attribute [local semireducible] Rat.add Rat.mul Rat.inv in
/-- Witness for the C8 theorem: confidences 1, 1, 1/2 in one category give
reported confidence 83/100 (= 0.83), the half-up rounding of 5/6. -/
theorem category_confidence_mean_witness :
    ([w8Det "TA" 1, w8Det "TB" 1, w8Det "TC" (1/2)] : List Detection) ≠ [] ∧
    ("misc", (83 : ℚ)/100) ∈
      (normalize [w8Det "TA" 1, w8Det "TB" 1, w8Det "TC" (1/2)]).confidence ∧
    (∃ names : List String, ∃ scores : List ℚ,
      List.Forall₂ (fun nm s => ∃ d ∈
          ([w8Det "TA" 1, w8Det "TB" 1, w8Det "TC" (1/2)] : List Detection),
        d.name = nm ∧ resolvedCategory d = "misc" ∧ s = d.confidence)
        names scores ∧
      names.Nodup ∧ names ≠ [] ∧
      (∃ ts, lookupKey
          (normalize [w8Det "TA" 1, w8Det "TB" 1, w8Det "TC" (1/2)]).technologies
          "misc" = some ts ∧ List.Perm ts names) ∧
      (83 : ℚ)/100 = round2 (scores.sum / (scores.length : ℚ))) :=
  ⟨by decide, by decide,
    category_confidence_mean [w8Det "TA" 1, w8Det "TB" 1, w8Det "TC" (1/2)]
      (by decide) "misc" ((83 : ℚ)/100) (by decide)⟩

end TechFirm
